import Mathlib

/-!
Shallow embedding of the td binlog engine (`src/tddb/td/db/binlog/Binlog.cpp`).

Bytes are modelled as `Nat`, byte strings as `List Nat`, 64-bit file offsets as
`Int`.  External collaborators that the engine only calls through their
interfaces (PBKDF2-HMAC-SHA256, HMAC-SHA256, CRC32, the TL serialization of the
key-bootstrap record, and `BinlogEvent::init`) are parameters gathered in the
`Ext` structure; every theorem quantifies over them.  The streaming AES-CTR
transform is a byte-for-byte bijection, so the reader-side byte stream is
modelled in its post-transform (plaintext) view and written bytes are counted
without applying the keystream; no claim depends on ciphertext values.
-/

namespace TdBinlog

/-- Modelled from the spec: minimal framed-record size (§3); the constant lives in
`BinlogEvent.h`, which is not under `src/`. -/
def MIN_EVENT_SIZE : Nat := 32

/-- Modelled from the spec: maximal framed-record size, about `1 <<< 24` (§3); the
constant lives in `BinlogEvent.h`, which is not under `src/`. -/
def MAX_EVENT_SIZE : Nat := 16777216

/-- Modelled from the spec: the `Rewrite` flag bit of the 32-bit flag bitset (§3);
the exact bit value lives in `BinlogEvent.h`, which is not under `src/`; only
distinctness from the fragment flag matters. -/
def RewriteFlag : Nat := 1

/-- Modelled from the spec: the fragment ("collect into a pending batch") flag bit
(§3); the exact bit value lives in `BinlogEvent.h`, which is not under `src/`. -/
def PartialFlag : Nat := 2

/-- Modelled from the spec: service type used together with `Rewrite` to erase an id
(§3, "conceptually −1"); the value lives in `BinlogEvent.h`, not under `src/`. -/
def ServiceTypeEmpty : Int := -1

/-- Modelled from the spec: service type of the key-bootstrap record (§3); the value
lives in `BinlogEvent.h`, not under `src/`; only negativity and distinctness from
`ServiceTypeEmpty` matter. -/
def ServiceTypeAesCtrEncryption : Int := -2

/-- Modelled from the spec: password material (§4.6, §3); `DbKey.h` is not under
`src/`.  A key is empty, a password, or a caller-declared raw key. -/
structure DbKey where
  isRaw : Bool
  data : List Nat
deriving DecidableEq

def DbKey.isEmpty (k : DbKey) : Bool := k.data.isEmpty

/-- A decoded binlog event (`BinlogEvent`): fields per the §3 data model, with
`rawEvent` the framed on-disk bytes kept alongside the decoded view. -/
structure BinlogEvent where
  id : Nat
  type : Int
  flags : Nat
  data : List Nat
  offset : Int
  rawEvent : List Nat
deriving DecidableEq

/-- Payload of `detail::AesCtrEncryptionEvent` (Binlog.cpp lines 29-90). -/
structure AesCtrEncryptionEvent where
  keySalt : List Nat
  iv : List Nat
  keyHash : List Nat
deriving DecidableEq

/-- External collaborators (§1, §6): crypto primitives, CRC32, the TL codec of the
key event (tdutils `tl_helpers`/`tl_parsers`) and `BinlogEvent::init`
(`BinlogEvent.cpp`), none of which are implemented under `src/`. -/
structure Ext where
  pbkdf2Sha256 : List Nat → List Nat → Nat → List Nat
  hmacSha256 : List Nat → List Nat → List Nat
  crc32 : List Nat → List Nat
  parseKeyEvent : List Nat → AesCtrEncryptionEvent
  serializeKeyEvent : AesCtrEncryptionEvent → List Nat
  decodeEvent : List Nat → Option BinlogEvent

def kdfIterationCount : Nat := 60002

def kdfFastIterationCount : Nat := 2

/-- The fixed HMAC message `"cucumbers everywhere"` (Binlog.cpp line 68). -/
def cucumbersEverywhere : List Nat := "cucumbers everywhere".toList.map Char.toNat

/-- `AesCtrEncryptionEvent::generate_key` (Binlog.cpp lines 56-65), factored over the
salt: PBKDF2 of the password with the record's salt, with the fast iteration count
for raw keys. -/
def generateKeyFrom (ext : Ext) (keySalt : List Nat) (dbKey : DbKey) : List Nat :=
  ext.pbkdf2Sha256 dbKey.data keySalt
    (if dbKey.isRaw then kdfFastIterationCount else kdfIterationCount)

def AesCtrEncryptionEvent.generateKey (ext : Ext) (ev : AesCtrEncryptionEvent)
    (dbKey : DbKey) : List Nat :=
  generateKeyFrom ext ev.keySalt dbKey

/-- `AesCtrEncryptionEvent::generate_hash` (Binlog.cpp lines 66-70). -/
def generateHash (ext : Ext) (key : List Nat) : List Nat :=
  ext.hmacSha256 key cucumbersEverywhere

/-! ## The two-state reader (`detail::BinlogReader`, Binlog.cpp lines 92-140) -/

inductive ReaderMode
  | ReadLength
  | ReadEvent
deriving DecidableEq

structure ReaderState where
  mode : ReaderMode
  size : Nat
  offset : Int
deriving DecidableEq

inductive ReadError
  | TooBig
  | TooSmall
  | DecodeFailed
deriving DecidableEq

inductive ReadNextResult
  | errRes (err : ReadError)
  | need (n : Nat)
  | evRes (e : BinlogEvent)
deriving DecidableEq

/-- The peeked 4-byte length: `TlParser::fetch_int` reads a little-endian signed
32-bit integer which `read_next` casts to a 64-bit `size_t` (Binlog.cpp line 113);
a negative value therefore becomes a huge unsigned size. -/
def decodeLength : List Nat → Nat
  | b0 :: b1 :: b2 :: b3 :: _ =>
    let v := b0 % 256 + 256 * (b1 % 256) + 65536 * (b2 % 256) + 16777216 * (b3 % 256)
    if v < 2147483648 then v else v + 18446744069414584320
  | _ => 0

/-- The body part of `read_next` (Binlog.cpp lines 124-132), reached in state
`ReadEvent` or after a successful length decode: wait for `size` bytes, then
consume exactly `size` bytes, decode, stamp the advanced running offset on the
event and reset to `ReadLength`.  A decode failure (`TRY_STATUS`) returns after
the bytes were consumed and before the offset/state updates, as in the source. -/
def readBody (ext : Ext) (st : ReaderState) (input : List Nat) :
    ReadNextResult × ReaderState × List Nat :=
  if input.length < st.size then (ReadNextResult.need st.size, st, input)
  else
    match ext.decodeEvent (input.take st.size) with
    | none => (ReadNextResult.errRes ReadError.DecodeFailed, st, input.drop st.size)
    | some e =>
      let off := st.offset + (st.size : Int)
      (ReadNextResult.evRes { e with offset := off },
        { st with mode := ReaderMode.ReadLength, offset := off },
        input.drop st.size)

/-- `detail::BinlogReader::read_next` (Binlog.cpp lines 104-133).  Returns the
result, the updated reader state and the remaining input. -/
def readNext (ext : Ext) (st : ReaderState) (input : List Nat) :
    ReadNextResult × ReaderState × List Nat :=
  match st.mode with
  | ReaderMode.ReadEvent => readBody ext st input
  | ReaderMode.ReadLength =>
    if input.length < 4 then (ReadNextResult.need 4, st, input)
    else
      let sz := decodeLength input
      if sz > MAX_EVENT_SIZE then
        (ReadNextResult.errRes ReadError.TooBig, { st with size := sz }, input)
      else if sz < MIN_EVENT_SIZE then
        (ReadNextResult.errRes ReadError.TooSmall, { st with size := sz }, input)
      else readBody ext { st with mode := ReaderMode.ReadEvent, size := sz } input

/-! ## The events processor (`detail::BinlogEventsProcessor`) -/

structure BinlogEventsProcessor where
  events : List BinlogEvent
  totalRawEventsSize : Nat
  lastId : Nat
  offset : Int
deriving DecidableEq

/-- Modelled from the spec: `BinlogEventsProcessor::add_event` (§4.3, §8);
`detail/BinlogEventsProcessor.h` is not under `src/`.  `offset` advances to the
applied record's end offset (§4.3, and §8's post-load invariant).  Service records
(negative type) do not enter the live set (§8: a file holding only an
`AesCtrEncryption` record replays to an empty live set).  `Rewrite` removes any
prior entry with the same id, replacing it in place unless the type is `Empty`;
erase of an absent id is a no-op.  Other events append; the monotonicity violation
the spec calls `NonMonotonicId` is fatal in the engine and is totalised here as a
plain append, which no claim depends on. -/
def BinlogEventsProcessor.addEvent (p : BinlogEventsProcessor) (e : BinlogEvent) :
    BinlogEventsProcessor :=
  let p1 : BinlogEventsProcessor := { p with offset := e.offset }
  if e.type < 0 then p1
  else if e.flags.land RewriteFlag != 0 then
    let removedSize := ((p1.events.filter (fun x => x.id == e.id)).map
      (fun x => x.rawEvent.length)).sum
    if p1.events.any (fun x => x.id == e.id) then
      if e.type = ServiceTypeEmpty then
        { p1 with events := p1.events.filter (fun x => x.id != e.id),
                  totalRawEventsSize := p1.totalRawEventsSize - removedSize }
      else
        { p1 with events := p1.events.map (fun x => if x.id == e.id then e else x),
                  totalRawEventsSize :=
                    p1.totalRawEventsSize - removedSize + e.rawEvent.length }
    else
      if e.type = ServiceTypeEmpty then p1
      else
        { p1 with events := p1.events ++ [e],
                  totalRawEventsSize := p1.totalRawEventsSize + e.rawEvent.length,
                  lastId := max p1.lastId e.id }
  else
    { p1 with events := p1.events ++ [e],
              totalRawEventsSize := p1.totalRawEventsSize + e.rawEvent.length,
              lastId := max p1.lastId e.id }

/-! ## Engine state (`Binlog`) -/

inductive BState
  | Load
  | Run
  | Reindex
deriving DecidableEq

inductive EncryptionType
  | None
  | AesCtr
deriving DecidableEq

/-- The engine's mutable state (§3 "Engine state" and the `Binlog` members used by
`Binlog.cpp`).  `bufferWriter` is the `ChainBufferWriter` byte queue,
`fileBytes` the bytes already handed to the (buffered) file. -/
structure EngineState where
  state : BState
  fdEvents : Nat
  fdSize : Nat
  encryptionType : EncryptionType
  bufferWriter : List Nat
  fileBytes : List Nat
  aesCtrKeySalt : List Nat
  aesCtrKey : List Nat
  aesCtrIv : List Nat
  dbKey : DbKey
  oldDbKey : DbKey
  wrongPassword : Bool
  dbKeyUsed : Bool
  needSync : Bool
  pendingEvents : List BinlogEvent
  processor : BinlogEventsProcessor
deriving DecidableEq

/-- `Binlog::flush` (Binlog.cpp lines 364-381): no-op during `Load`; otherwise the
buffered bytes travel (through the write-side crypto pipeline, a byte-for-byte
transform) into the file, and `need_sync` is set when anything was written. -/
def flushE (st : EngineState) : EngineState :=
  if st.state = BState.Load then st
  else
    { st with fileBytes := st.fileBytes ++ st.bufferWriter,
              bufferWriter := [],
              needSync := if st.bufferWriter.length > 0 then true else st.needSync }

/-- `Binlog::sync` (Binlog.cpp lines 355-362): flush, then fd sync (durability only)
clearing `need_sync`. -/
def syncE (st : EngineState) : EngineState :=
  let st1 := flushE st
  if st1.needSync then { st1 with needSync := false } else st1

def hasFlag (flags bit : Nat) : Bool := flags.land bit != 0

/-- `flags_ &= ~Partial` (Binlog.cpp line 242): the fragment bit is removed. -/
def clearPartialFlag (flags : Nat) : Nat := flags - flags.land PartialFlag

/-- The candidate verification key of `Binlog::do_event` (Binlog.cpp lines 312-317):
the cached key bytes when the salt matches, else a key derived from `db_key` when
that is non-empty, else the empty `BufferSlice`. -/
def candidateKey (ext : Ext) (st : EngineState) (ev : AesCtrEncryptionEvent) :
    List Nat :=
  if st.aesCtrKeySalt = ev.keySalt then st.aesCtrKey
  else if !st.dbKey.isEmpty then ev.generateKey ext st.dbKey
  else []

/-- The key finally installed by the verification cascade of `Binlog::do_event`
(Binlog.cpp lines 319-331): the C++ mutates `key` in place, re-assigning it to the
`old_db_key` derivation inside the mismatch branch; this definition is that final
value. -/
def verifiedKey (ext : Ext) (st : EngineState) (ev : AesCtrEncryptionEvent) :
    List Nat :=
  let key0 := candidateKey ext st ev
  if generateHash ext key0 ≠ ev.keyHash then
    if !st.oldDbKey.isEmpty then ev.generateKey ext st.oldDbKey else key0
  else key0

/-- The flag effects of the same cascade (Binlog.cpp lines 319-331): on mismatch,
during `Load` only (a `CHECK` in the source), try `old_db_key`; if that is empty or
also mismatches set `wrong_password`, else leave the flags; on a first-try match
set `db_key_used`. -/
def verifyFlags (ext : Ext) (st : EngineState) (ev : AesCtrEncryptionEvent) :
    EngineState :=
  if generateHash ext (candidateKey ext st ev) ≠ ev.keyHash then
    if !st.oldDbKey.isEmpty then
      if generateHash ext (ev.generateKey ext st.oldDbKey) ≠ ev.keyHash then
        { st with wrongPassword := true }
      else st
    else { st with wrongPassword := true }
  else { st with dbKeyUsed := true }

/-- The `AesCtrEncryption` branch of `Binlog::do_event` (Binlog.cpp lines 307-347):
parse the record, run the verification cascade, switch to AES-CTR storing salt,
key and iv (`update_encryption`), then rewire the read pipeline during `Load`
(no modelled state change) or flush and rewire the write pipeline during
`Reindex`. -/
def processKeyEvent (ext : Ext) (st : EngineState) (e : BinlogEvent) : EngineState :=
  let ev := ext.parseKeyEvent e.data
  let st1 := verifyFlags ext st ev
  let st2 := { st1 with encryptionType := EncryptionType.AesCtr,
                        aesCtrKeySalt := ev.keySalt,
                        aesCtrKey := verifiedKey ext st ev,
                        aesCtrIv := ev.iv }
  if st2.state = BState.Load then st2 else flushE st2

/-- The first three steps of `Binlog::do_event` (Binlog.cpp lines 289-348): count
the event and its raw size; in `Run`/`Reindex` append the raw bytes to the chain
buffer; handle the key record. -/
def doEventPre (ext : Ext) (st0 : EngineState) (e : BinlogEvent) : EngineState :=
  let st1 : EngineState :=
    { st0 with fdEvents := st0.fdEvents + 1, fdSize := st0.fdSize + e.rawEvent.length }
  let st2 : EngineState :=
    if st1.state = BState.Run ∨ st1.state = BState.Reindex then
      { st1 with bufferWriter := st1.bufferWriter ++ e.rawEvent }
    else st1
  if e.type < 0 then
    if e.type = ServiceTypeAesCtrEncryption then processKeyEvent ext st2 e else st2
  else st2

/-- `Binlog::do_event` (Binlog.cpp lines 289-353): the steps above, then feed the
event into the processor unless the state is `Reindex` (line 350). -/
def doEvent (ext : Ext) (st0 : EngineState) (e : BinlogEvent) : EngineState :=
  let st3 := doEventPre ext st0 e
  if st3.state ≠ BState.Reindex then
    { st3 with processor := st3.processor.addEvent e }
  else st3

/-- `Binlog::do_add_event` (Binlog.cpp lines 240-251): a fragment (`Partial` flag)
has the flag cleared and is queued; any other event first drains the pending queue
through `do_event` in arrival order and is then applied itself. -/
def doAddEventE (ext : Ext) (st : EngineState) (e : BinlogEvent) : EngineState :=
  if hasFlag e.flags PartialFlag then
    { st with pendingEvents :=
        st.pendingEvents ++ [{ e with flags := clearPartialFlag e.flags }] }
  else
    let st1 := st.pendingEvents.foldl (doEvent ext) st
    doEvent ext { st1 with pendingEvents := [] } e

/-! ## The reindex heuristic of `Binlog::add_event` (Binlog.cpp lines 210-223) -/

/-- The `need_reindex` lambda (Binlog.cpp lines 215-217). -/
def needReindexAt (fdSize totalRawEventsSize minSize rate : Nat) : Bool :=
  decide (fdSize > minSize) && decide (fdSize / rate > totalRawEventsSize)

/-- Whether `Binlog::add_event` calls `do_reindex` (Binlog.cpp lines 210-223): only
in state `Run`, when either threshold pair fires; `fdSize` already includes any
buffered bytes (the events buffer is disabled in the source, line 166). -/
def addEventTriggersReindex (st : BState) (fdSize totalRawEventsSize : Nat) : Bool :=
  decide (st = BState.Run) &&
    (needReindexAt fdSize totalRawEventsSize 100000 5 ||
      needReindexAt fdSize totalRawEventsSize 500000 2)

/-! ## Reindex and encryption reset -/

def leBytes : Nat → Nat → List Nat
  | 0, _ => []
  | w + 1, v => v % 256 :: leBytes w (v / 256)

/-- Modelled from the spec: `BinlogEvent::create_raw` / the codec's `encode` (§3,
§4.1); `BinlogEvent.cpp` is not under `src/`.  Header per the §3 layout, payload
padded to 4-byte alignment, trailing CRC32 over all preceding bytes; `data` holds
the caller's payload, `rawEvent` the framed bytes. -/
def createRaw (ext : Ext) (id : Nat) (etype : Int) (flags : Nat)
    (payload : List Nat) : BinlogEvent :=
  let pad := (4 - payload.length % 4) % 4
  let body := payload ++ List.replicate pad 0
  let size := 32 + body.length
  let head := leBytes 4 size ++ leBytes 8 id ++ leBytes 4 (etype % 4294967296).toNat ++
    leBytes 4 flags ++ leBytes 8 0
  { id := id, type := etype, flags := flags, data := payload, offset := 0,
    rawEvent := head ++ body ++ ext.crc32 (head ++ body) }

/-- The key record built by `Binlog::reset_encryption` (Binlog.cpp lines 538-557):
keep the existing salt if present, else use the fresh random salt; always a fresh
random iv; reuse the cached key bytes exactly when the salt was kept, else derive
from `db_key`; hash the chosen key.  `freshSalt`/`freshIv` stand for the
`Random::secure_bytes` draws. -/
def resetEncryptionEvent (ext : Ext) (freshSalt freshIv : List Nat)
    (st : EngineState) : AesCtrEncryptionEvent :=
  let keySalt := if st.aesCtrKeySalt.isEmpty then freshSalt else st.aesCtrKeySalt
  let key := if st.aesCtrKeySalt = keySalt then st.aesCtrKey
             else generateKeyFrom ext keySalt st.dbKey
  { keySalt := keySalt, iv := freshIv, keyHash := generateHash ext key }

/-- `Binlog::reset_encryption` (Binlog.cpp lines 532-561): with an empty `db_key`
just switch encryption off; otherwise emit the key record through `do_event` as a
raw service event with id 0 and no flags. -/
def resetEncryption (ext : Ext) (freshSalt freshIv : List Nat) (st : EngineState) :
    EngineState :=
  if st.dbKey.isEmpty then { st with encryptionType := EncryptionType.None }
  else
    let ev := resetEncryptionEvent ext freshSalt freshIv st
    doEvent ext st
      (createRaw ext 0 ServiceTypeAesCtrEncryption 0 (ext.serializeKeyEvent ev))

/-- The state with which `Binlog::do_reindex` (Binlog.cpp lines 563-594) enters
`reset_encryption`: state `Reindex`, fresh (new-file) fd and buffers, encryption
off, counters zeroed.  The key salt is left untouched. -/
def reindexEntry (eng : EngineState) : EngineState :=
  { eng with state := BState.Reindex,
             bufferWriter := [], fileBytes := [],
             encryptionType := EncryptionType.None,
             fdSize := 0, fdEvents := 0 }

/-- `Binlog::do_reindex` (Binlog.cpp lines 563-626): switch to the new file, reset
encryption, replay the processor's live set through `do_event`, sync, atomically
swap files (no modelled effect beyond `fileBytes` being the new file), and return
to `Run` with reset buffers. -/
def doReindex (ext : Ext) (freshSalt freshIv : List Nat) (eng : EngineState) :
    EngineState :=
  let e1 := reindexEntry eng
  let e2 := resetEncryption ext freshSalt freshIv e1
  let e3 := e2.processor.events.foldl (doEvent ext) e2
  let e4 := syncE { e3 with needSync := true }
  { e4 with state := BState.Run, bufferWriter := [] }

/-! ## Load (`Binlog::load_binlog`, Binlog.cpp lines 435-515) and init -/

/-- The process-wide forensic toggle, `false` unless explicitly enabled
(Binlog.cpp line 143). -/
def IGNORE_ERASE_HACK : Bool := false

structure LoadState where
  engine : EngineState
  reader : ReaderState
  input : List Nat
  file : List Nat
  readyFlag : Bool
deriving DecidableEq

inductive LoadStepResult
  | cont (st : LoadState)
  | stopTail (st : LoadState)
  | stopReadError (st : LoadState)
  | stopWrongPassword (st : LoadState)
deriving DecidableEq

/-- One iteration of the load loop (Binlog.cpp lines 449-484): a reader error breaks
out; a produced event goes through `do_add_event` (unless skipped by the erase
hack) and clears `ready_flag`, returning OK immediately if `wrong_password` was
set; a `need_bytes` return breaks out when the previous iteration also needed
bytes (`ready_flag`), else pulls at least `max(need_bytes, 4096)` file bytes
through the pipeline and sets `ready_flag`. -/
def loadStep (ext : Ext) (ls : LoadState) : LoadStepResult :=
  match readNext ext ls.reader ls.input with
  | (ReadNextResult.errRes _, r1, i1) =>
    LoadStepResult.stopReadError { ls with reader := r1, input := i1 }
  | (ReadNextResult.evRes e, r1, i1) =>
    if IGNORE_ERASE_HACK = true ∧ e.type = ServiceTypeEmpty ∧
        hasFlag e.flags RewriteFlag = true then
      LoadStepResult.cont { ls with reader := r1, input := i1, readyFlag := false }
    else
      let eng := doAddEventE ext ls.engine e
      if eng.wrongPassword then
        LoadStepResult.stopWrongPassword { ls with engine := eng, reader := r1, input := i1 }
      else
        LoadStepResult.cont
          { ls with engine := eng, reader := r1, input := i1, readyFlag := false }
  | (ReadNextResult.need n, r1, i1) =>
    if ls.readyFlag then LoadStepResult.stopTail { ls with reader := r1, input := i1 }
    else
      let req := max n 4096
      LoadStepResult.cont
        { ls with reader := r1, input := i1 ++ ls.file.take req,
                  file := ls.file.drop req, readyFlag := true }

structure LoadFinishResult where
  replayed : List BinlogEvent
  engine : EngineState
  fileSize : Int
  truncated : Bool
deriving DecidableEq

/-- The epilogue of `Binlog::load_binlog` (Binlog.cpp lines 486-514): replay every
live processor event through the callback, then, when the processor's offset and
the file size disagree, seek and truncate the file to that offset and clear
`db_key_used` to force a reindex; finally enter `Run` with reset buffers. -/
def loadFinish (eng : EngineState) (fdSize : Int) : LoadFinishResult :=
  if eng.processor.offset ≠ fdSize then
    { replayed := eng.processor.events,
      engine := { eng with dbKeyUsed := false, state := BState.Run, bufferWriter := [] },
      fileSize := eng.processor.offset,
      truncated := true }
  else
    { replayed := eng.processor.events,
      engine := { eng with state := BState.Run, bufferWriter := [] },
      fileSize := fdSize,
      truncated := false }

inductive InitDecision
  | wrongPassword
  | reindexForced
  | opened
deriving DecidableEq

/-- The decision `Binlog::init` takes after a successful load (Binlog.cpp lines
188-198): report `WrongPassword` and close; or, when `db_key` went unused or the
file is encrypted while `db_key` is empty, clear the stored salt and reindex; or
just open. -/
def initAfterLoad (eng : EngineState) : InitDecision × EngineState :=
  if eng.wrongPassword then (InitDecision.wrongPassword, eng)
  else if (eng.dbKey.isEmpty = false ∧ eng.dbKeyUsed = false) ∨
      (eng.dbKey.isEmpty = true ∧ eng.encryptionType ≠ EncryptionType.None) then
    (InitDecision.reindexForced, { eng with aesCtrKeySalt := [] })
  else (InitDecision.opened, eng)

/-! ## Concrete instances used by the witnesses -/

def testSplitLen : List Nat → List Nat × List Nat
  | [] => ([], [])
  | n :: rest => (rest.take n, rest.drop n)

def testParseKE (bytes : List Nat) : AesCtrEncryptionEvent :=
  let p1 := testSplitLen bytes
  let p2 := testSplitLen p1.2
  let p3 := testSplitLen p2.2
  { keySalt := p1.1, iv := p2.1, keyHash := p3.1 }

def testSerializeKE (ev : AesCtrEncryptionEvent) : List Nat :=
  ev.keySalt.length :: ev.keySalt ++ ev.iv.length :: ev.iv ++
    ev.keyHash.length :: ev.keyHash

def extTest : Ext :=
  { pbkdf2Sha256 := fun pw salt _ => pw ++ salt,
    hmacSha256 := fun key _ => 0 :: key,
    crc32 := fun _ => [0, 0, 0, 0],
    parseKeyEvent := testParseKE,
    serializeKeyEvent := testSerializeKE,
    decodeEvent := fun raw =>
      some { id := 0, type := 7, flags := 0, data := raw.drop 28, offset := 0,
             rawEvent := raw } }

def procTest : BinlogEventsProcessor :=
  { events := [], totalRawEventsSize := 0, lastId := 0, offset := 0 }

def engTest : EngineState :=
  { state := BState.Load, fdEvents := 0, fdSize := 0,
    encryptionType := EncryptionType.None,
    bufferWriter := [], fileBytes := [],
    aesCtrKeySalt := [], aesCtrKey := [], aesCtrIv := [],
    dbKey := { isRaw := false, data := [] },
    oldDbKey := { isRaw := false, data := [] },
    wrongPassword := false, dbKeyUsed := false, needSync := false,
    pendingEvents := [], processor := procTest }

/-! ## Helper lemmas about the reader -/

theorem readBody_need_inv (ext : Ext) (st : ReaderState) (input : List Nat)
    (n : Nat) (st1 : ReaderState) (rest : List Nat)
    (h : readBody ext st input = (ReadNextResult.need n, st1, rest)) :
    rest = input ∧ st1 = st ∧ n = st.size ∧ input.length < st.size := by
  unfold readBody at h
  split at h
  · simp only [Prod.mk.injEq, ReadNextResult.need.injEq] at h
    exact ⟨h.2.2.symm, h.2.1.symm, h.1.symm, by assumption⟩
  · split at h <;> simp_all

theorem readBody_event_inv (ext : Ext) (st : ReaderState) (input : List Nat)
    (e : BinlogEvent) (st1 : ReaderState) (rest : List Nat)
    (h : readBody ext st input = (ReadNextResult.evRes e, st1, rest)) :
    st.size ≤ input.length ∧
    rest = input.drop st.size ∧
    st1 = { st with mode := ReaderMode.ReadLength,
                    offset := st.offset + (st.size : Int) } ∧
    ∃ d, ext.decodeEvent (input.take st.size) = some d ∧
      e = { d with offset := st.offset + (st.size : Int) } := by
  unfold readBody at h
  split at h
  · simp_all
  · next hge =>
    split at h
    · simp_all
    · next d hd =>
      simp only [Prod.mk.injEq, ReadNextResult.evRes.injEq] at h
      exact ⟨Nat.le_of_not_lt hge, h.2.2.symm, h.2.1.symm, d, hd, h.1.symm⟩

/-- C4: the Reader never consumes a partial record: whenever `read_next` returns a
byte requirement the input is unchanged (4 bytes in `ReadLength`, the full record
size in `ReadEvent`), and when it produces an event it has consumed exactly `size`
bytes, advanced the running offset by `size`, stamped that offset on the decoded
event, and reset to `ReadLength`. -/
theorem c4_reader_never_consumes_partial_record (ext : Ext) (st : ReaderState)
    (input : List Nat) :
    (∀ n st1 rest, readNext ext st input = (ReadNextResult.need n, st1, rest) →
      rest = input ∧
      (st1.mode = ReaderMode.ReadEvent → n = st1.size ∧ input.length < st1.size) ∧
      (st1.mode = ReaderMode.ReadLength → n = 4 ∧ input.length < 4)) ∧
    (∀ e st1 rest, readNext ext st input = (ReadNextResult.evRes e, st1, rest) →
      st1.size ≤ input.length ∧
      rest = input.drop st1.size ∧
      st1.mode = ReaderMode.ReadLength ∧
      st1.offset = st.offset + (st1.size : Int) ∧
      e.offset = st1.offset ∧
      ∃ d, ext.decodeEvent (input.take st1.size) = some d ∧
        e = { d with offset := st1.offset }) := by
  obtain ⟨mode, size, offset⟩ := st
  constructor
  · intro n st1 rest h
    cases mode with
    | ReadEvent =>
      have h2 := readBody_need_inv ext ⟨ReaderMode.ReadEvent, size, offset⟩ input n st1 rest h
      obtain ⟨hrest, hst, hn, hlt⟩ := h2
      subst hst
      exact ⟨hrest, fun _ => ⟨hn, hlt⟩, fun hc => by simp at hc⟩
    | ReadLength =>
      simp only [readNext] at h
      split at h
      · next hlt =>
        simp only [Prod.mk.injEq, ReadNextResult.need.injEq] at h
        obtain ⟨hn, hst, hrest⟩ := h
        subst hst
        exact ⟨hrest.symm, fun hc => by simp at hc, fun _ => ⟨hn.symm, hlt⟩⟩
      · split at h
        · simp at h
        · split at h
          · simp at h
          · have h2 := readBody_need_inv ext _ input n st1 rest h
            obtain ⟨hrest, hst, hn, hlt⟩ := h2
            subst hst
            exact ⟨hrest, fun _ => ⟨hn, hlt⟩, fun hc => by simp at hc⟩
  · intro e st1 rest h
    cases mode with
    | ReadEvent =>
      have h2 := readBody_event_inv ext ⟨ReaderMode.ReadEvent, size, offset⟩ input e st1 rest h
      obtain ⟨hge, hrest, hst, d, hd, he⟩ := h2
      subst hst
      exact ⟨hge, hrest, rfl, rfl, by rw [he], d, hd, he⟩
    | ReadLength =>
      simp only [readNext] at h
      split at h
      · simp at h
      · split at h
        · simp at h
        · split at h
          · simp at h
          · have h2 := readBody_event_inv ext _ input e st1 rest h
            obtain ⟨hge, hrest, hst, d, hd, he⟩ := h2
            subst hst
            exact ⟨hge, hrest, rfl, rfl, by rw [he], d, hd, he⟩

theorem c4_reader_never_consumes_partial_record_witness :
    ((∀ n st1 rest,
        readNext extTest ⟨ReaderMode.ReadLength, 0, 0⟩ [0, 0] = (ReadNextResult.need n, st1, rest) →
        rest = [0, 0] ∧
        (st1.mode = ReaderMode.ReadEvent → n = st1.size ∧ ([0, 0] : List Nat).length < st1.size) ∧
        (st1.mode = ReaderMode.ReadLength → n = 4 ∧ ([0, 0] : List Nat).length < 4)) ∧
      (∀ e st1 rest,
        readNext extTest ⟨ReaderMode.ReadLength, 0, 0⟩ [0, 0] = (ReadNextResult.evRes e, st1, rest) →
        st1.size ≤ ([0, 0] : List Nat).length ∧
        rest = ([0, 0] : List Nat).drop st1.size ∧
        st1.mode = ReaderMode.ReadLength ∧
        st1.offset = 0 + (st1.size : Int) ∧
        e.offset = st1.offset ∧
        ∃ d, extTest.decodeEvent (([0, 0] : List Nat).take st1.size) = some d ∧
          e = { d with offset := st1.offset })) :=
  c4_reader_never_consumes_partial_record extTest ⟨ReaderMode.ReadLength, 0, 0⟩ [0, 0]

/-- C5: in state `ReadLength`, `read_next` returns 4 when fewer than 4 bytes are
buffered; with 4 bytes peeked it errors `TooBig` for every decoded size above
`MAX_EVENT_SIZE` and `TooSmall` for every decoded size below `MIN_EVENT_SIZE`,
consuming no input bytes in any of these cases. -/
theorem c5_read_length_size_bounds (ext : Ext) (st : ReaderState) (input : List Nat)
    (hmode : st.mode = ReaderMode.ReadLength) :
    (input.length < 4 →
      readNext ext st input = (ReadNextResult.need 4, st, input)) ∧
    (4 ≤ input.length → MAX_EVENT_SIZE < decodeLength input →
      readNext ext st input =
        (ReadNextResult.errRes ReadError.TooBig,
         { st with size := decodeLength input }, input)) ∧
    (4 ≤ input.length → decodeLength input < MIN_EVENT_SIZE →
      readNext ext st input =
        (ReadNextResult.errRes ReadError.TooSmall,
         { st with size := decodeLength input }, input)) := by
  obtain ⟨mode, size, offset⟩ := st
  simp only at hmode
  subst hmode
  refine ⟨?_, ?_, ?_⟩
  · intro h
    simp [readNext, h]
  · intro h1 h2
    simp [readNext, Nat.not_lt.mpr h1, h2, gt_iff_lt]
  · intro h1 h2
    have hnotbig : ¬ MAX_EVENT_SIZE < decodeLength input := by
      simp only [MIN_EVENT_SIZE] at h2
      simp only [MAX_EVENT_SIZE]
      omega
    simp [readNext, Nat.not_lt.mpr h1, h2, hnotbig, gt_iff_lt]

theorem c5_read_length_size_bounds_witness :
    ((([0, 0, 0, 255] : List Nat).length < 4 →
      readNext extTest ⟨ReaderMode.ReadLength, 0, 0⟩ [0, 0, 0, 255] =
        (ReadNextResult.need 4, ⟨ReaderMode.ReadLength, 0, 0⟩, [0, 0, 0, 255])) ∧
    (4 ≤ ([0, 0, 0, 255] : List Nat).length →
      MAX_EVENT_SIZE < decodeLength [0, 0, 0, 255] →
      readNext extTest ⟨ReaderMode.ReadLength, 0, 0⟩ [0, 0, 0, 255] =
        (ReadNextResult.errRes ReadError.TooBig,
         { ReaderState.mk ReaderMode.ReadLength 0 0 with
             size := decodeLength [0, 0, 0, 255] }, [0, 0, 0, 255])) ∧
    (4 ≤ ([0, 0, 0, 255] : List Nat).length →
      decodeLength [0, 0, 0, 255] < MIN_EVENT_SIZE →
      readNext extTest ⟨ReaderMode.ReadLength, 0, 0⟩ [0, 0, 0, 255] =
        (ReadNextResult.errRes ReadError.TooSmall,
         { ReaderState.mk ReaderMode.ReadLength 0 0 with
             size := decodeLength [0, 0, 0, 255] }, [0, 0, 0, 255]))) :=
  c5_read_length_size_bounds extTest ⟨ReaderMode.ReadLength, 0, 0⟩ [0, 0, 0, 255] rfl

/-- C7: `add_event` triggers `do_reindex` only in state `Run` and exactly when
`fd_size > 100000` with `fd_size / 5 > total_raw_events_size`, or
`fd_size > 500000` with `fd_size / 2 > total_raw_events_size` (integer division);
hence the heuristic never fires when `fd_size ≤ 100000`. -/
theorem c7_reindex_heuristic (st : BState) (fdSize total : Nat) :
    (addEventTriggersReindex st fdSize total = true ↔
      st = BState.Run ∧
        ((fdSize > 100000 ∧ fdSize / 5 > total) ∨
          (fdSize > 500000 ∧ fdSize / 2 > total))) ∧
    (fdSize ≤ 100000 → addEventTriggersReindex st fdSize total = false) := by
  constructor
  · simp [addEventTriggersReindex, needReindexAt, and_or_left]
  · intro h
    simp only [addEventTriggersReindex, needReindexAt, Bool.and_eq_false_iff,
      Bool.or_eq_false_iff, decide_eq_false_iff_not]
    right
    constructor <;> left <;> omega

theorem c7_reindex_heuristic_witness :
    ((addEventTriggersReindex BState.Run 600000 100 = true ↔
      BState.Run = BState.Run ∧
        ((600000 > 100000 ∧ 600000 / 5 > 100) ∨
          (600000 > 500000 ∧ 600000 / 2 > 100))) ∧
    (600000 ≤ 100000 → addEventTriggersReindex BState.Run 600000 100 = false)) :=
  c7_reindex_heuristic BState.Run 600000 100

/-! ## Pending-event (fragment) handling -/

theorem foldFragments (ext : Ext) :
    ∀ (evs : List BinlogEvent) (st : EngineState),
      (∀ x ∈ evs, hasFlag x.flags PartialFlag = true) →
      evs.foldl (doAddEventE ext) st =
        { st with pendingEvents := st.pendingEvents ++
            evs.map (fun x => { x with flags := clearPartialFlag x.flags }) }
  | [], st, _ => by simp
  | e :: rest, st, h => by
    have he := h e (List.mem_cons_self e rest)
    have hrest : ∀ x ∈ rest, hasFlag x.flags PartialFlag = true :=
      fun x hx => h x (List.mem_cons_of_mem e hx)
    simp only [List.foldl_cons, List.map_cons]
    rw [show doAddEventE ext st e =
        { st with pendingEvents :=
            st.pendingEvents ++ [{ e with flags := clearPartialFlag e.flags }] } from
      by simp [doAddEventE, he]]
    rw [foldFragments ext rest _ hrest]
    simp

/-- C3: `do_add_event` clears the `Partial` flag of a fragment and queues it in
`pending_events` without reaching `do_event` (and hence the Processor); a
non-fragment event first drains the pending queue through `do_event` in arrival
order and is then applied itself; consequently a run of events all carrying
`Partial` only grows the pending queue and leaves the rest of the engine, the
Processor included, untouched. -/
theorem c3_fragments_invisible_until_commit (ext : Ext) (st : EngineState)
    (e : BinlogEvent) :
    (hasFlag e.flags PartialFlag = true →
      doAddEventE ext st e =
        { st with pendingEvents :=
            st.pendingEvents ++ [{ e with flags := clearPartialFlag e.flags }] }) ∧
    (hasFlag e.flags PartialFlag = false →
      doAddEventE ext st e =
        doEvent ext { st.pendingEvents.foldl (doEvent ext) st with pendingEvents := [] } e) ∧
    (∀ evs : List BinlogEvent, (∀ x ∈ evs, hasFlag x.flags PartialFlag = true) →
      evs.foldl (doAddEventE ext) st =
        { st with pendingEvents := st.pendingEvents ++
            evs.map (fun x => { x with flags := clearPartialFlag x.flags }) }) :=
  ⟨fun h => by simp [doAddEventE, h],
   fun h => by simp [doAddEventE, h],
   fun evs h => foldFragments ext evs st h⟩

theorem c3_fragments_invisible_until_commit_witness :
    ((hasFlag 2 PartialFlag = true →
      doAddEventE extTest engTest (BinlogEvent.mk 1 7 2 [] 0 []) =
        { engTest with pendingEvents := engTest.pendingEvents ++
            [{ (BinlogEvent.mk 1 7 2 [] 0 []) with flags := clearPartialFlag 2 }] }) ∧
    (hasFlag 2 PartialFlag = false →
      doAddEventE extTest engTest (BinlogEvent.mk 1 7 2 [] 0 []) =
        doEvent extTest
          { engTest.pendingEvents.foldl (doEvent extTest) engTest with pendingEvents := [] }
          (BinlogEvent.mk 1 7 2 [] 0 [])) ∧
    (∀ evs : List BinlogEvent, (∀ x ∈ evs, hasFlag x.flags PartialFlag = true) →
      evs.foldl (doAddEventE extTest) engTest =
        { engTest with pendingEvents := engTest.pendingEvents ++ evs.map (fun x => { x with flags := clearPartialFlag x.flags }) })) :=
  c3_fragments_invisible_until_commit extTest engTest (BinlogEvent.mk 1 7 2 [] 0 [])

/-! ## Load epilogue: torn-tail truncation -/

/-- C1: if after the read loop the Processor's offset is below the file size, the
load epilogue still replays every live Processor event through the callback, then
seeks and truncates the file to that offset and clears `db_key_used`, forcing a
later reindex. -/
theorem c1_torn_tail_truncation (eng : EngineState) (fdSize : Int)
    (h : eng.processor.offset < fdSize) :
    loadFinish eng fdSize =
      { replayed := eng.processor.events,
        engine := { eng with dbKeyUsed := false, state := BState.Run,
                             bufferWriter := [] },
        fileSize := eng.processor.offset,
        truncated := true } := by
  have hne : eng.processor.offset ≠ fdSize := Int.ne_of_lt h
  simp [loadFinish, hne]

theorem c1_torn_tail_truncation_witness :
    loadFinish engTest 5 =
      { replayed := engTest.processor.events,
        engine := { engTest with dbKeyUsed := false, state := BState.Run,
                                 bufferWriter := [] },
        fileSize := engTest.processor.offset,
        truncated := true } :=
  c1_torn_tail_truncation engTest 5 (by decide)

/-! ## Load loop: two-strike EOF detection -/

/-- C6: the load loop stops treating the tail as clean EOF exactly when `read_next`
asks for bytes while the previous iteration already did (`ready_flag` set) with no
event produced in between; on a first `need_bytes` it pulls at least
`max(need_bytes, 4096)` bytes from the file and retries with `ready_flag` set, and
a produced event resets `ready_flag`. -/
theorem c6_two_strike_eof (ext : Ext) (ls : LoadState) :
    ((∃ st1, loadStep ext ls = LoadStepResult.stopTail st1) ↔
      ls.readyFlag = true ∧
        ∃ n r1 i1, readNext ext ls.reader ls.input = (ReadNextResult.need n, r1, i1)) ∧
    (∀ n r1 i1, readNext ext ls.reader ls.input = (ReadNextResult.need n, r1, i1) →
      ls.readyFlag = false →
      loadStep ext ls = LoadStepResult.cont
        { ls with reader := r1,
                  input := i1 ++ ls.file.take (max n 4096),
                  file := ls.file.drop (max n 4096),
                  readyFlag := true }) ∧
    (∀ e r1 i1, readNext ext ls.reader ls.input = (ReadNextResult.evRes e, r1, i1) →
      (doAddEventE ext ls.engine e).wrongPassword = false →
      loadStep ext ls = LoadStepResult.cont
        { ls with engine := doAddEventE ext ls.engine e, reader := r1, input := i1,
                  readyFlag := false }) := by
  refine ⟨⟨?_, ?_⟩, ?_, ?_⟩
  · rintro ⟨st1, hstep⟩
    rcases hread : readNext ext ls.reader ls.input with ⟨res, r1, i1⟩
    cases res with
    | errRes err =>
      unfold loadStep at hstep
      rw [hread] at hstep
      simp at hstep
    | evRes e =>
      unfold loadStep at hstep
      rw [hread] at hstep
      dsimp only at hstep
      rw [if_neg (by simp [IGNORE_ERASE_HACK])] at hstep
      split at hstep <;> simp at hstep
    | need n =>
      unfold loadStep at hstep
      rw [hread] at hstep
      by_cases hrf : ls.readyFlag
      · exact ⟨hrf, n, r1, i1, rfl⟩
      · simp [hrf] at hstep
  · rintro ⟨hrf, n, r1, i1, hread⟩
    refine ⟨{ ls with reader := r1, input := i1 }, ?_⟩
    unfold loadStep
    rw [hread]
    simp [hrf]
  · intro n r1 i1 hread hrf
    unfold loadStep
    rw [hread]
    simp [hrf]
  · intro e r1 i1 hread hwp
    unfold loadStep
    rw [hread]
    simp only [IGNORE_ERASE_HACK, false_and, if_false]
    simp [hwp]

theorem c6_two_strike_eof_witness :
    (((∃ st1, loadStep extTest ⟨engTest, ⟨ReaderMode.ReadLength, 0, 0⟩, [], [], true⟩ =
        LoadStepResult.stopTail st1) ↔
      (true : Bool) = true ∧
        ∃ n r1 i1, readNext extTest ⟨ReaderMode.ReadLength, 0, 0⟩ [] =
          (ReadNextResult.need n, r1, i1)) ∧
    (∀ n r1 i1, readNext extTest ⟨ReaderMode.ReadLength, 0, 0⟩ [] =
        (ReadNextResult.need n, r1, i1) →
      (true : Bool) = false →
      loadStep extTest ⟨engTest, ⟨ReaderMode.ReadLength, 0, 0⟩, [], [], true⟩ =
        LoadStepResult.cont
          { LoadState.mk engTest ⟨ReaderMode.ReadLength, 0, 0⟩ [] [] true with
              reader := r1,
              input := i1 ++ ([] : List Nat).take (max n 4096),
              file := ([] : List Nat).drop (max n 4096),
              readyFlag := true }) ∧
    (∀ e r1 i1, readNext extTest ⟨ReaderMode.ReadLength, 0, 0⟩ [] =
        (ReadNextResult.evRes e, r1, i1) →
      (doAddEventE extTest engTest e).wrongPassword = false →
      loadStep extTest ⟨engTest, ⟨ReaderMode.ReadLength, 0, 0⟩, [], [], true⟩ =
        LoadStepResult.cont
          { LoadState.mk engTest ⟨ReaderMode.ReadLength, 0, 0⟩ [] [] true with
              engine := doAddEventE extTest engTest e, reader := r1, input := i1,
              readyFlag := false })) :=
  c6_two_strike_eof extTest ⟨engTest, ⟨ReaderMode.ReadLength, 0, 0⟩, [], [], true⟩

/-! ## Frame lemmas for `do_event` and friends -/

theorem flushE_state (st : EngineState) : (flushE st).state = st.state := by
  unfold flushE
  split <;> rfl

theorem flushE_processor (st : EngineState) : (flushE st).processor = st.processor := by
  unfold flushE
  split <;> rfl

theorem flushE_wrongPassword (st : EngineState) :
    (flushE st).wrongPassword = st.wrongPassword := by
  unfold flushE
  split <;> rfl

theorem flushE_dbKeyUsed (st : EngineState) : (flushE st).dbKeyUsed = st.dbKeyUsed := by
  unfold flushE
  split <;> rfl

theorem flushE_aesCtrKey (st : EngineState) : (flushE st).aesCtrKey = st.aesCtrKey := by
  unfold flushE
  split <;> rfl

theorem flushE_aesCtrKeySalt (st : EngineState) :
    (flushE st).aesCtrKeySalt = st.aesCtrKeySalt := by
  unfold flushE
  split <;> rfl

theorem flushE_encryptionType (st : EngineState) :
    (flushE st).encryptionType = st.encryptionType := by
  unfold flushE
  split <;> rfl

theorem flushE_dbKey (st : EngineState) : (flushE st).dbKey = st.dbKey := by
  unfold flushE
  split <;> rfl

theorem syncE_processor (st : EngineState) : (syncE st).processor = st.processor := by
  unfold syncE
  dsimp only
  split <;> simp [flushE_processor]

theorem syncE_state (st : EngineState) : (syncE st).state = st.state := by
  unfold syncE
  dsimp only
  split <;> simp [flushE_state]

theorem syncE_aesCtrKey (st : EngineState) : (syncE st).aesCtrKey = st.aesCtrKey := by
  unfold syncE
  dsimp only
  split <;> simp [flushE_aesCtrKey]

theorem syncE_aesCtrKeySalt (st : EngineState) :
    (syncE st).aesCtrKeySalt = st.aesCtrKeySalt := by
  unfold syncE
  dsimp only
  split <;> simp [flushE_aesCtrKeySalt]

theorem syncE_dbKeyUsed (st : EngineState) : (syncE st).dbKeyUsed = st.dbKeyUsed := by
  unfold syncE
  dsimp only
  split <;> simp [flushE_dbKeyUsed]

theorem syncE_encryptionType (st : EngineState) :
    (syncE st).encryptionType = st.encryptionType := by
  unfold syncE
  dsimp only
  split <;> simp [flushE_encryptionType]

theorem verifyFlags_state (ext : Ext) (st : EngineState) (ev : AesCtrEncryptionEvent) :
    (verifyFlags ext st ev).state = st.state := by
  unfold verifyFlags
  split
  · split
    · split <;> rfl
    · rfl
  · rfl

theorem verifyFlags_processor (ext : Ext) (st : EngineState)
    (ev : AesCtrEncryptionEvent) : (verifyFlags ext st ev).processor = st.processor := by
  unfold verifyFlags
  split
  · split
    · split <;> rfl
    · rfl
  · rfl

theorem verifyFlags_dbKey (ext : Ext) (st : EngineState) (ev : AesCtrEncryptionEvent) :
    (verifyFlags ext st ev).dbKey = st.dbKey := by
  unfold verifyFlags
  split
  · split
    · split <;> rfl
    · rfl
  · rfl

theorem processKeyEvent_state (ext : Ext) (st : EngineState) (e : BinlogEvent) :
    (processKeyEvent ext st e).state = st.state := by
  unfold processKeyEvent
  dsimp only
  split
  · simp [verifyFlags_state]
  · simp [flushE_state, verifyFlags_state]

theorem processKeyEvent_processor (ext : Ext) (st : EngineState) (e : BinlogEvent) :
    (processKeyEvent ext st e).processor = st.processor := by
  unfold processKeyEvent
  dsimp only
  split
  · simp [verifyFlags_processor]
  · simp [flushE_processor, verifyFlags_processor]

theorem processKeyEvent_dbKey (ext : Ext) (st : EngineState) (e : BinlogEvent) :
    (processKeyEvent ext st e).dbKey = st.dbKey := by
  unfold processKeyEvent
  dsimp only
  split
  · simp [verifyFlags_dbKey]
  · simp [flushE_dbKey, verifyFlags_dbKey]

theorem doEventPre_state (ext : Ext) (st : EngineState) (e : BinlogEvent) :
    (doEventPre ext st e).state = st.state := by
  unfold doEventPre
  dsimp only
  split_ifs <;> simp [processKeyEvent_state]

theorem doEventPre_processor (ext : Ext) (st : EngineState) (e : BinlogEvent) :
    (doEventPre ext st e).processor = st.processor := by
  unfold doEventPre
  dsimp only
  split_ifs <;> simp [processKeyEvent_processor]

theorem doEventPre_dbKey (ext : Ext) (st : EngineState) (e : BinlogEvent) :
    (doEventPre ext st e).dbKey = st.dbKey := by
  unfold doEventPre
  dsimp only
  split_ifs <;> simp [processKeyEvent_dbKey]

theorem doEvent_state (ext : Ext) (st : EngineState) (e : BinlogEvent) :
    (doEvent ext st e).state = st.state := by
  unfold doEvent
  dsimp only
  split <;> simp [doEventPre_state]

theorem doEvent_wrongPassword (ext : Ext) (st : EngineState) (e : BinlogEvent) :
    (doEvent ext st e).wrongPassword = (doEventPre ext st e).wrongPassword := by
  unfold doEvent
  dsimp only
  split <;> rfl

theorem doEvent_aesCtrKey (ext : Ext) (st : EngineState) (e : BinlogEvent) :
    (doEvent ext st e).aesCtrKey = (doEventPre ext st e).aesCtrKey := by
  unfold doEvent
  dsimp only
  split <;> rfl

theorem doEvent_aesCtrKeySalt (ext : Ext) (st : EngineState) (e : BinlogEvent) :
    (doEvent ext st e).aesCtrKeySalt = (doEventPre ext st e).aesCtrKeySalt := by
  unfold doEvent
  dsimp only
  split <;> rfl

theorem doEvent_dbKeyUsed (ext : Ext) (st : EngineState) (e : BinlogEvent) :
    (doEvent ext st e).dbKeyUsed = (doEventPre ext st e).dbKeyUsed := by
  unfold doEvent
  dsimp only
  split <;> rfl

theorem doEvent_encryptionType (ext : Ext) (st : EngineState) (e : BinlogEvent) :
    (doEvent ext st e).encryptionType = (doEventPre ext st e).encryptionType := by
  unfold doEvent
  dsimp only
  split <;> rfl

theorem doEvent_dbKey (ext : Ext) (st : EngineState) (e : BinlogEvent) :
    (doEvent ext st e).dbKey = st.dbKey := by
  unfold doEvent
  dsimp only
  split <;> simp [doEventPre_dbKey]

theorem doEvent_processor_of_reindex (ext : Ext) (st : EngineState) (e : BinlogEvent)
    (h : st.state = BState.Reindex) : (doEvent ext st e).processor = st.processor := by
  have hc : ¬ ((doEventPre ext st e).state ≠ BState.Reindex) := by
    rw [doEventPre_state, h]
    exact fun hcc => hcc rfl
  unfold doEvent
  dsimp only
  rw [if_neg hc]
  exact doEventPre_processor ext st e

theorem foldl_doEvent_processor_of_reindex (ext : Ext) :
    ∀ (evs : List BinlogEvent) (st : EngineState), st.state = BState.Reindex →
      (evs.foldl (doEvent ext) st).processor = st.processor
  | [], _, _ => rfl
  | e :: rest, st, h => by
    rw [List.foldl_cons,
      foldl_doEvent_processor_of_reindex ext rest _ (by rw [doEvent_state]; exact h)]
    exact doEvent_processor_of_reindex ext st e h

theorem resetEncryption_state (ext : Ext) (fs fi : List Nat) (st : EngineState) :
    (resetEncryption ext fs fi st).state = st.state := by
  unfold resetEncryption
  split
  · rfl
  · exact doEvent_state ext st _

theorem resetEncryption_processor (ext : Ext) (fs fi : List Nat) (st : EngineState)
    (h : st.state = BState.Reindex) :
    (resetEncryption ext fs fi st).processor = st.processor := by
  unfold resetEncryption
  split
  · rfl
  · exact doEvent_processor_of_reindex ext st _ h

theorem doReindex_processor (ext : Ext) (fs fi : List Nat) (eng : EngineState) :
    (doReindex ext fs fi eng).processor = eng.processor := by
  have h1 : (resetEncryption ext fs fi (reindexEntry eng)).state = BState.Reindex := by
    rw [resetEncryption_state]
    rfl
  have h2 := foldl_doEvent_processor_of_reindex ext
    (resetEncryption ext fs fi (reindexEntry eng)).processor.events
    (resetEncryption ext fs fi (reindexEntry eng)) h1
  have h3 := resetEncryption_processor ext fs fi (reindexEntry eng) rfl
  unfold doReindex
  dsimp only
  simp only [syncE_processor]
  rw [h2, h3]
  rfl

/-- C8: while state is `Reindex`, `do_event` writes the event's raw bytes to the new
file's buffer but never feeds the Processor, so the Processor is unchanged by any
single call, by any sequence of `Reindex`-state calls, and by the whole
`do_reindex` replay of the live set. -/
theorem c8_reindex_never_feeds_processor (ext : Ext) (st : EngineState)
    (e : BinlogEvent) (h : st.state = BState.Reindex) :
    (doEvent ext st e).processor = st.processor ∧
    (0 ≤ e.type → (doEvent ext st e).bufferWriter = st.bufferWriter ++ e.rawEvent) ∧
    (∀ evs : List BinlogEvent, (evs.foldl (doEvent ext) st).processor = st.processor) ∧
    (∀ (freshSalt freshIv : List Nat) (eng : EngineState), eng.state = BState.Run →
      (doReindex ext freshSalt freshIv eng).processor = eng.processor) := by
  refine ⟨doEvent_processor_of_reindex ext st e h, ?_, ?_, ?_⟩
  · intro ht
    have ht2 : ¬ e.type < 0 := Int.not_lt.mpr ht
    unfold doEvent doEventPre
    dsimp only
    simp [h, ht2]
  · intro evs
    exact foldl_doEvent_processor_of_reindex ext evs st h
  · intro fs fi eng _
    exact doReindex_processor ext fs fi eng

theorem c8_reindex_never_feeds_processor_witness :
    ((doEvent extTest { engTest with state := BState.Reindex } (BinlogEvent.mk 1 7 0 [] 0 [9, 9]) ).processor = ({ engTest with state := BState.Reindex } : EngineState).processor ∧
    (0 ≤ (BinlogEvent.mk 1 7 0 [] 0 [9, 9]).type →
      (doEvent extTest { engTest with state := BState.Reindex } (BinlogEvent.mk 1 7 0 [] 0 [9, 9])).bufferWriter =
        ({ engTest with state := BState.Reindex } : EngineState).bufferWriter ++ (BinlogEvent.mk 1 7 0 [] 0 [9, 9]).rawEvent) ∧
    (∀ evs : List BinlogEvent,
      (evs.foldl (doEvent extTest) { engTest with state := BState.Reindex }).processor =
        ({ engTest with state := BState.Reindex } : EngineState).processor) ∧
    (∀ (freshSalt freshIv : List Nat) (eng : EngineState), eng.state = BState.Run →
      (doReindex extTest freshSalt freshIv eng).processor = eng.processor)) :=
  c8_reindex_never_feeds_processor extTest { engTest with state := BState.Reindex }
    (BinlogEvent.mk 1 7 0 [] 0 [9, 9]) rfl

/-! ## Key verification cascade -/

theorem verifyFlags_wrongPassword_set (ext : Ext) (st : EngineState)
    (ev : AesCtrEncryptionEvent)
    (hmiss : generateHash ext (candidateKey ext st ev) ≠ ev.keyHash)
    (hold : st.oldDbKey.isEmpty = true ∨
      generateHash ext (ev.generateKey ext st.oldDbKey) ≠ ev.keyHash) :
    verifyFlags ext st ev = { st with wrongPassword := true } := by
  unfold verifyFlags
  rw [if_pos hmiss]
  rcases hold with hoe | hm2
  · rw [if_neg (by simp [hoe])]
  · by_cases hoe : st.oldDbKey.isEmpty = true
    · rw [if_neg (by simp [hoe])]
    · rw [if_pos (by simp [hoe]), if_pos hm2]

theorem verifyFlags_oldKeyOk (ext : Ext) (st : EngineState)
    (ev : AesCtrEncryptionEvent)
    (hmiss : generateHash ext (candidateKey ext st ev) ≠ ev.keyHash)
    (hoe : st.oldDbKey.isEmpty = false)
    (hm2 : generateHash ext (ev.generateKey ext st.oldDbKey) = ev.keyHash) :
    verifyFlags ext st ev = st := by
  unfold verifyFlags
  rw [if_pos hmiss, if_pos (by simp [hoe]), if_neg (by simp [hm2])]

theorem verifiedKey_of_miss_old (ext : Ext) (st : EngineState)
    (ev : AesCtrEncryptionEvent)
    (hmiss : generateHash ext (candidateKey ext st ev) ≠ ev.keyHash)
    (hoe : st.oldDbKey.isEmpty = false) :
    verifiedKey ext st ev = ev.generateKey ext st.oldDbKey := by
  unfold verifiedKey
  dsimp only
  rw [if_pos hmiss, if_pos (by simp [hoe])]

theorem verifiedKey_of_match (ext : Ext) (st : EngineState)
    (ev : AesCtrEncryptionEvent)
    (hmatch : generateHash ext (candidateKey ext st ev) = ev.keyHash) :
    verifiedKey ext st ev = candidateKey ext st ev := by
  unfold verifiedKey
  dsimp only
  rw [if_neg (by simp [hmatch])]

theorem candidateKey_empty (ext : Ext) (st : EngineState) (ev : AesCtrEncryptionEvent)
    (hsalt : st.aesCtrKeySalt ≠ ev.keySalt) (hdb : st.dbKey.isEmpty = true) :
    candidateKey ext st ev = [] := by
  unfold candidateKey
  rw [if_neg hsalt, if_neg (by simp [hdb])]

theorem doEventPre_key_of_load (ext : Ext) (st : EngineState) (e : BinlogEvent)
    (hstate : st.state = BState.Load)
    (htype : e.type = ServiceTypeAesCtrEncryption) :
    doEventPre ext st e =
      processKeyEvent ext
        { st with fdEvents := st.fdEvents + 1,
                  fdSize := st.fdSize + e.rawEvent.length } e := by
  have htn : e.type < 0 := by rw [htype]; decide
  unfold doEventPre
  dsimp only
  rw [if_neg (show ¬(st.state = BState.Run ∨ st.state = BState.Reindex) by
    simp [hstate]), if_pos htn, if_pos htype]

theorem processKeyEvent_of_load (ext : Ext) (st : EngineState) (e : BinlogEvent)
    (hstate : st.state = BState.Load) :
    processKeyEvent ext st e =
      { verifyFlags ext st (ext.parseKeyEvent e.data) with
        encryptionType := EncryptionType.AesCtr,
        aesCtrKeySalt := (ext.parseKeyEvent e.data).keySalt,
        aesCtrKey := verifiedKey ext st (ext.parseKeyEvent e.data),
        aesCtrIv := (ext.parseKeyEvent e.data).iv } := by
  unfold processKeyEvent
  dsimp only
  rw [if_pos (by simp [verifyFlags_state, hstate])]

theorem doEvent_key_wrongPassword (ext : Ext) (st : EngineState) (e : BinlogEvent)
    (hstate : st.state = BState.Load)
    (htype : e.type = ServiceTypeAesCtrEncryption)
    (hmiss : generateHash ext (candidateKey ext st (ext.parseKeyEvent e.data)) ≠
      (ext.parseKeyEvent e.data).keyHash)
    (hold : st.oldDbKey.isEmpty = true ∨
      generateHash ext ((ext.parseKeyEvent e.data).generateKey ext st.oldDbKey) ≠
        (ext.parseKeyEvent e.data).keyHash) :
    (doEvent ext st e).wrongPassword = true ∧
    (doEvent ext st e).encryptionType = EncryptionType.AesCtr := by
  have hpre := doEventPre_key_of_load ext st e hstate htype
  have hkey := processKeyEvent_of_load ext
    { st with fdEvents := st.fdEvents + 1, fdSize := st.fdSize + e.rawEvent.length }
    e hstate
  have hvf := verifyFlags_wrongPassword_set ext
    { st with fdEvents := st.fdEvents + 1, fdSize := st.fdSize + e.rawEvent.length }
    (ext.parseKeyEvent e.data) hmiss hold
  constructor
  · rw [doEvent_wrongPassword, hpre, hkey, hvf]
  · rw [doEvent_encryptionType, hpre, hkey]

theorem doEvent_key_oldKeyUnlock (ext : Ext) (st : EngineState) (e : BinlogEvent)
    (hstate : st.state = BState.Load)
    (htype : e.type = ServiceTypeAesCtrEncryption)
    (hmiss : generateHash ext (candidateKey ext st (ext.parseKeyEvent e.data)) ≠
      (ext.parseKeyEvent e.data).keyHash)
    (hoe : st.oldDbKey.isEmpty = false)
    (hm2 : generateHash ext ((ext.parseKeyEvent e.data).generateKey ext st.oldDbKey) =
      (ext.parseKeyEvent e.data).keyHash) :
    (doEvent ext st e).wrongPassword = st.wrongPassword ∧
    (doEvent ext st e).aesCtrKey =
      (ext.parseKeyEvent e.data).generateKey ext st.oldDbKey := by
  have hpre := doEventPre_key_of_load ext st e hstate htype
  have hkey := processKeyEvent_of_load ext
    { st with fdEvents := st.fdEvents + 1, fdSize := st.fdSize + e.rawEvent.length }
    e hstate
  have hvf := verifyFlags_oldKeyOk ext
    { st with fdEvents := st.fdEvents + 1, fdSize := st.fdSize + e.rawEvent.length }
    (ext.parseKeyEvent e.data) hmiss hoe hm2
  have hvk := verifiedKey_of_miss_old ext
    { st with fdEvents := st.fdEvents + 1, fdSize := st.fdSize + e.rawEvent.length }
    (ext.parseKeyEvent e.data) hmiss hoe
  constructor
  · rw [doEvent_wrongPassword, hpre, hkey, hvf]
  · rw [doEvent_aesCtrKey, hpre, hkey, hvk]

/-- C2: on an `AesCtrEncryption` record during `Load` whose candidate key (cached
bytes on a salt match, else a `db_key` derivation) fails the HMAC check, the engine
tries a key derived from `old_db_key`; if `old_db_key` is empty or that hash also
mismatches, `wrong_password` is set, the load loop returns OK immediately after the
offending event, and `init` reports `WrongPassword` without reindexing. -/
theorem c2_wrong_password_path (ext : Ext) (st : EngineState) (e : BinlogEvent)
    (hstate : st.state = BState.Load)
    (htype : e.type = ServiceTypeAesCtrEncryption)
    (hmiss : generateHash ext (candidateKey ext st (ext.parseKeyEvent e.data)) ≠
      (ext.parseKeyEvent e.data).keyHash) :
    ((st.oldDbKey.isEmpty = true ∨
        generateHash ext ((ext.parseKeyEvent e.data).generateKey ext st.oldDbKey) ≠
          (ext.parseKeyEvent e.data).keyHash) →
      (doEvent ext st e).wrongPassword = true) ∧
    (st.oldDbKey.isEmpty = false →
      generateHash ext ((ext.parseKeyEvent e.data).generateKey ext st.oldDbKey) =
        (ext.parseKeyEvent e.data).keyHash →
      (doEvent ext st e).wrongPassword = st.wrongPassword ∧
      (doEvent ext st e).aesCtrKey =
        (ext.parseKeyEvent e.data).generateKey ext st.oldDbKey) ∧
    (∀ (ls : LoadState) (e1 : BinlogEvent) (r1 : ReaderState) (i1 : List Nat),
      readNext ext ls.reader ls.input = (ReadNextResult.evRes e1, r1, i1) →
      (doAddEventE ext ls.engine e1).wrongPassword = true →
      loadStep ext ls = LoadStepResult.stopWrongPassword
        { ls with engine := doAddEventE ext ls.engine e1, reader := r1, input := i1 }) ∧
    (∀ eng : EngineState, eng.wrongPassword = true →
      initAfterLoad eng = (InitDecision.wrongPassword, eng)) := by
  refine ⟨?_, ?_, ?_, ?_⟩
  · intro hold
    exact (doEvent_key_wrongPassword ext st e hstate htype hmiss hold).1
  · intro hoe hm2
    exact doEvent_key_oldKeyUnlock ext st e hstate htype hmiss hoe hm2
  · intro ls e1 r1 i1 hread hwp
    unfold loadStep
    rw [hread]
    dsimp only
    rw [if_neg (by simp [IGNORE_ERASE_HACK])]
    simp [hwp]
  · intro eng hwp
    simp [initAfterLoad, hwp]

def keyRecTest : BinlogEvent :=
  BinlogEvent.mk 0 ServiceTypeAesCtrEncryption 0
    (testSerializeKE ⟨[5], [], [42]⟩) 0 []

def engMissTest : EngineState :=
  { engTest with oldDbKey := ⟨false, [1]⟩, aesCtrKeySalt := [9], aesCtrKey := [7] }

theorem c2_wrong_password_path_witness :
    (((engMissTest.oldDbKey.isEmpty = true ∨
        generateHash extTest ((extTest.parseKeyEvent keyRecTest.data).generateKey extTest engMissTest.oldDbKey) ≠
          (extTest.parseKeyEvent keyRecTest.data).keyHash) →
      (doEvent extTest engMissTest keyRecTest).wrongPassword = true) ∧
    (engMissTest.oldDbKey.isEmpty = false →
      generateHash extTest ((extTest.parseKeyEvent keyRecTest.data).generateKey extTest engMissTest.oldDbKey) =
        (extTest.parseKeyEvent keyRecTest.data).keyHash →
      (doEvent extTest engMissTest keyRecTest).wrongPassword = engMissTest.wrongPassword ∧
      (doEvent extTest engMissTest keyRecTest).aesCtrKey =
        (extTest.parseKeyEvent keyRecTest.data).generateKey extTest engMissTest.oldDbKey) ∧
    (∀ (ls : LoadState) (e1 : BinlogEvent) (r1 : ReaderState) (i1 : List Nat),
      readNext extTest ls.reader ls.input = (ReadNextResult.evRes e1, r1, i1) →
      (doAddEventE extTest ls.engine e1).wrongPassword = true →
      loadStep extTest ls = LoadStepResult.stopWrongPassword
        { ls with engine := doAddEventE extTest ls.engine e1, reader := r1, input := i1 }) ∧
    (∀ eng : EngineState, eng.wrongPassword = true →
      initAfterLoad eng = (InitDecision.wrongPassword, eng))) :=
  c2_wrong_password_path extTest engMissTest keyRecTest rfl rfl (by decide)

/-- C9: opening an encrypted binlog with `db_key` and `old_db_key` both empty fails
closed: on a key record whose salt differs from the cached salt the candidate key
stays empty, the hash check fails, `wrong_password` is set, and `init` decides
`WrongPassword` even though the engine is now marked encrypted with an empty
`db_key`, i.e. before the empty-`db_key` reindex branch could strip encryption. -/
theorem c9_empty_keys_fail_closed (ext : Ext) (st : EngineState) (e : BinlogEvent)
    (hstate : st.state = BState.Load)
    (htype : e.type = ServiceTypeAesCtrEncryption)
    (hdb : st.dbKey.isEmpty = true)
    (hold : st.oldDbKey.isEmpty = true)
    (hsalt : st.aesCtrKeySalt ≠ (ext.parseKeyEvent e.data).keySalt)
    (hhash : generateHash ext [] ≠ (ext.parseKeyEvent e.data).keyHash) :
    candidateKey ext st (ext.parseKeyEvent e.data) = [] ∧
    (doEvent ext st e).wrongPassword = true ∧
    (doEvent ext st e).encryptionType = EncryptionType.AesCtr ∧
    (doEvent ext st e).dbKey.isEmpty = true ∧
    initAfterLoad (doEvent ext st e) =
      (InitDecision.wrongPassword, doEvent ext st e) := by
  have hck : candidateKey ext st (ext.parseKeyEvent e.data) = [] :=
    candidateKey_empty ext st _ hsalt hdb
  have hmiss : generateHash ext (candidateKey ext st (ext.parseKeyEvent e.data)) ≠
      (ext.parseKeyEvent e.data).keyHash := by
    rw [hck]
    exact hhash
  have hmain := doEvent_key_wrongPassword ext st e hstate htype hmiss (Or.inl hold)
  refine ⟨hck, hmain.1, hmain.2, ?_, ?_⟩
  · rw [doEvent_dbKey]
    exact hdb
  · simp [initAfterLoad, hmain.1]

def engSaltTest : EngineState := { engTest with aesCtrKeySalt := [9] }

theorem c9_empty_keys_fail_closed_witness :
    (candidateKey extTest engSaltTest (extTest.parseKeyEvent keyRecTest.data) = [] ∧
    (doEvent extTest engSaltTest keyRecTest).wrongPassword = true ∧
    (doEvent extTest engSaltTest keyRecTest).encryptionType = EncryptionType.AesCtr ∧
    (doEvent extTest engSaltTest keyRecTest).dbKey.isEmpty = true ∧
    initAfterLoad (doEvent extTest engSaltTest keyRecTest) =
      (InitDecision.wrongPassword, doEvent extTest engSaltTest keyRecTest)) :=
  c9_empty_keys_fail_closed extTest engSaltTest keyRecTest rfl rfl rfl rfl
    (by decide) (by decide)

/-! ## Key rotation through a forced reindex -/

theorem verifyFlags_match (ext : Ext) (st : EngineState) (ev : AesCtrEncryptionEvent)
    (hmatch : generateHash ext (candidateKey ext st ev) = ev.keyHash) :
    verifyFlags ext st ev = { st with dbKeyUsed := true } := by
  unfold verifyFlags
  rw [if_neg (by simp [hmatch])]

theorem candidateKey_derived (ext : Ext) (st : EngineState) (ev : AesCtrEncryptionEvent)
    (hsalt : st.aesCtrKeySalt ≠ ev.keySalt) (hdb : st.dbKey.isEmpty = false) :
    candidateKey ext st ev = ev.generateKey ext st.dbKey := by
  unfold candidateKey
  rw [if_neg hsalt, if_pos (by simp [hdb])]

theorem doEventPre_key_of_reindex (ext : Ext) (st : EngineState) (e : BinlogEvent)
    (hstate : st.state = BState.Reindex)
    (htype : e.type = ServiceTypeAesCtrEncryption) :
    doEventPre ext st e =
      processKeyEvent ext
        { st with fdEvents := st.fdEvents + 1,
                  fdSize := st.fdSize + e.rawEvent.length,
                  bufferWriter := st.bufferWriter ++ e.rawEvent } e := by
  have htn : e.type < 0 := by rw [htype]; decide
  unfold doEventPre
  dsimp only
  rw [if_pos (show st.state = BState.Run ∨ st.state = BState.Reindex from Or.inr hstate),
    if_pos htn, if_pos htype]

theorem processKeyEvent_of_reindex (ext : Ext) (st : EngineState) (e : BinlogEvent)
    (hstate : st.state = BState.Reindex) :
    processKeyEvent ext st e =
      flushE { verifyFlags ext st (ext.parseKeyEvent e.data) with
        encryptionType := EncryptionType.AesCtr,
        aesCtrKeySalt := (ext.parseKeyEvent e.data).keySalt,
        aesCtrKey := verifiedKey ext st (ext.parseKeyEvent e.data),
        aesCtrIv := (ext.parseKeyEvent e.data).iv } := by
  unfold processKeyEvent
  dsimp only
  rw [if_neg (by simp [verifyFlags_state, hstate])]

theorem doEvent_key_match_reindex (ext : Ext) (st : EngineState) (e : BinlogEvent)
    (hstate : st.state = BState.Reindex)
    (htype : e.type = ServiceTypeAesCtrEncryption)
    (hmatch : generateHash ext (candidateKey ext st (ext.parseKeyEvent e.data)) =
      (ext.parseKeyEvent e.data).keyHash) :
    (doEvent ext st e).aesCtrKeySalt = (ext.parseKeyEvent e.data).keySalt ∧
    (doEvent ext st e).aesCtrKey = candidateKey ext st (ext.parseKeyEvent e.data) ∧
    (doEvent ext st e).dbKeyUsed = true ∧
    (doEvent ext st e).encryptionType = EncryptionType.AesCtr := by
  have hpre := doEventPre_key_of_reindex ext st e hstate htype
  have hkey := processKeyEvent_of_reindex ext
    { st with fdEvents := st.fdEvents + 1, fdSize := st.fdSize + e.rawEvent.length,
              bufferWriter := st.bufferWriter ++ e.rawEvent } e hstate
  have hvf := verifyFlags_match ext
    { st with fdEvents := st.fdEvents + 1, fdSize := st.fdSize + e.rawEvent.length,
              bufferWriter := st.bufferWriter ++ e.rawEvent }
    (ext.parseKeyEvent e.data) hmatch
  have hvk := verifiedKey_of_match ext
    { st with fdEvents := st.fdEvents + 1, fdSize := st.fdSize + e.rawEvent.length,
              bufferWriter := st.bufferWriter ++ e.rawEvent }
    (ext.parseKeyEvent e.data) hmatch
  refine ⟨?_, ?_, ?_, ?_⟩
  · rw [doEvent_aesCtrKeySalt, hpre, hkey, flushE_aesCtrKeySalt]
  · rw [doEvent_aesCtrKey, hpre, hkey, flushE_aesCtrKey]
    dsimp only
    rw [hvk]
    exact rfl
  · rw [doEvent_dbKeyUsed, hpre, hkey, flushE_dbKeyUsed]
    dsimp only
    rw [hvf]
  · rw [doEvent_encryptionType, hpre, hkey, flushE_encryptionType]

theorem doEventPre_nonservice (ext : Ext) (st : EngineState) (e : BinlogEvent)
    (ht2 : ¬ e.type < 0) :
    (doEventPre ext st e).aesCtrKeySalt = st.aesCtrKeySalt ∧
    (doEventPre ext st e).aesCtrKey = st.aesCtrKey ∧
    (doEventPre ext st e).dbKeyUsed = st.dbKeyUsed ∧
    (doEventPre ext st e).encryptionType = st.encryptionType := by
  unfold doEventPre
  dsimp only
  rw [if_neg ht2]
  split <;> simp

theorem doEvent_nonservice (ext : Ext) (st : EngineState) (e : BinlogEvent)
    (h : 0 ≤ e.type) :
    (doEvent ext st e).aesCtrKeySalt = st.aesCtrKeySalt ∧
    (doEvent ext st e).aesCtrKey = st.aesCtrKey ∧
    (doEvent ext st e).dbKeyUsed = st.dbKeyUsed ∧
    (doEvent ext st e).encryptionType = st.encryptionType := by
  have hp := doEventPre_nonservice ext st e (Int.not_lt.mpr h)
  exact ⟨by rw [doEvent_aesCtrKeySalt]; exact hp.1,
         by rw [doEvent_aesCtrKey]; exact hp.2.1,
         by rw [doEvent_dbKeyUsed]; exact hp.2.2.1,
         by rw [doEvent_encryptionType]; exact hp.2.2.2⟩

theorem foldl_doEvent_nonservice (ext : Ext) :
    ∀ (evs : List BinlogEvent) (st : EngineState), (∀ x ∈ evs, 0 ≤ x.type) →
      (evs.foldl (doEvent ext) st).aesCtrKeySalt = st.aesCtrKeySalt ∧
      (evs.foldl (doEvent ext) st).aesCtrKey = st.aesCtrKey ∧
      (evs.foldl (doEvent ext) st).dbKeyUsed = st.dbKeyUsed ∧
      (evs.foldl (doEvent ext) st).encryptionType = st.encryptionType
  | [], _, _ => ⟨rfl, rfl, rfl, rfl⟩
  | e :: rest, st, h => by
    have h1 := doEvent_nonservice ext st e (h e (List.mem_cons_self e rest))
    have h2 := foldl_doEvent_nonservice ext rest (doEvent ext st e)
      (fun x hx => h x (List.mem_cons_of_mem e hx))
    rw [List.foldl_cons]
    exact ⟨h2.1.trans h1.1, h2.2.1.trans h1.2.1, h2.2.2.1.trans h1.2.2.1,
           h2.2.2.2.trans h1.2.2.2⟩

theorem resetEncryptionEvent_fresh (ext : Ext) (fs fi : List Nat) (st : EngineState)
    (hempty : st.aesCtrKeySalt = []) (hfresh : fs ≠ []) :
    resetEncryptionEvent ext fs fi st =
      { keySalt := fs, iv := fi,
        keyHash := generateHash ext (generateKeyFrom ext fs st.dbKey) } := by
  unfold resetEncryptionEvent
  dsimp only
  rw [hempty]
  rw [if_pos (by simp)]
  rw [if_neg (fun hc => hfresh hc.symm)]

theorem resetEncryption_rotates (ext : Ext) (fs fi : List Nat) (st : EngineState)
    (hstate : st.state = BState.Reindex)
    (hempty : st.aesCtrKeySalt = [])
    (hdb : st.dbKey.isEmpty = false)
    (hfresh : fs ≠ [])
    (hrt : ext.parseKeyEvent (ext.serializeKeyEvent (resetEncryptionEvent ext fs fi st)) =
      resetEncryptionEvent ext fs fi st) :
    (resetEncryption ext fs fi st).aesCtrKeySalt = fs ∧
    (resetEncryption ext fs fi st).aesCtrKey = generateKeyFrom ext fs st.dbKey ∧
    (resetEncryption ext fs fi st).dbKeyUsed = true ∧
    (resetEncryption ext fs fi st).encryptionType = EncryptionType.AesCtr := by
  have hev := resetEncryptionEvent_fresh ext fs fi st hempty hfresh
  have hdata : ext.parseKeyEvent (createRaw ext 0 ServiceTypeAesCtrEncryption 0
      (ext.serializeKeyEvent (resetEncryptionEvent ext fs fi st))).data =
      resetEncryptionEvent ext fs fi st := hrt
  have hsalt2 : st.aesCtrKeySalt ≠ (resetEncryptionEvent ext fs fi st).keySalt := by
    rw [hev, hempty]
    exact fun hc => hfresh hc.symm
  have hmatch0 : generateHash ext (candidateKey ext st (resetEncryptionEvent ext fs fi st)) =
      (resetEncryptionEvent ext fs fi st).keyHash := by
    rw [candidateKey_derived ext st _ hsalt2 hdb, hev]
    exact rfl
  have hmatch : generateHash ext (candidateKey ext st
      (ext.parseKeyEvent (createRaw ext 0 ServiceTypeAesCtrEncryption 0
        (ext.serializeKeyEvent (resetEncryptionEvent ext fs fi st))).data)) =
      (ext.parseKeyEvent (createRaw ext 0 ServiceTypeAesCtrEncryption 0
        (ext.serializeKeyEvent (resetEncryptionEvent ext fs fi st))).data).keyHash := by
    rw [hdata]
    exact hmatch0
  have hm := doEvent_key_match_reindex ext st
    (createRaw ext 0 ServiceTypeAesCtrEncryption 0
      (ext.serializeKeyEvent (resetEncryptionEvent ext fs fi st)))
    hstate rfl hmatch
  have hre : resetEncryption ext fs fi st =
      doEvent ext st (createRaw ext 0 ServiceTypeAesCtrEncryption 0
        (ext.serializeKeyEvent (resetEncryptionEvent ext fs fi st))) := by
    unfold resetEncryption
    rw [if_neg (by simp [hdb])]
  refine ⟨?_, ?_, ?_, ?_⟩
  · rw [hre, hm.1, hdata, hev]
  · rw [hre, hm.2.1, hdata, candidateKey_derived ext st _ hsalt2 hdb, hev]
    exact rfl
  · rw [hre]
    exact hm.2.2.1
  · rw [hre]
    exact hm.2.2.2

theorem doReindex_rotates (ext : Ext) (fs fi : List Nat) (eng : EngineState)
    (hempty : eng.aesCtrKeySalt = [])
    (hdb : eng.dbKey.isEmpty = false)
    (hfresh : fs ≠ [])
    (hrt : ext.parseKeyEvent (ext.serializeKeyEvent
        (resetEncryptionEvent ext fs fi (reindexEntry eng))) =
      resetEncryptionEvent ext fs fi (reindexEntry eng))
    (hproc : ∀ x ∈ eng.processor.events, 0 ≤ x.type) :
    (doReindex ext fs fi eng).aesCtrKeySalt = fs ∧
    (doReindex ext fs fi eng).aesCtrKey = generateKeyFrom ext fs eng.dbKey ∧
    (doReindex ext fs fi eng).dbKeyUsed = true ∧
    (doReindex ext fs fi eng).encryptionType = EncryptionType.AesCtr := by
  have h1 := resetEncryption_rotates ext fs fi (reindexEntry eng) rfl hempty hdb hfresh hrt
  have hpp : (resetEncryption ext fs fi (reindexEntry eng)).processor = eng.processor := by
    rw [resetEncryption_processor ext fs fi (reindexEntry eng) rfl]
    rfl
  have h2 := foldl_doEvent_nonservice ext
    (resetEncryption ext fs fi (reindexEntry eng)).processor.events
    (resetEncryption ext fs fi (reindexEntry eng))
    (by rw [hpp]; exact hproc)
  unfold doReindex
  dsimp only
  rw [syncE_aesCtrKeySalt, syncE_aesCtrKey, syncE_dbKeyUsed, syncE_encryptionType]
  dsimp only
  exact ⟨h2.1.trans h1.1, h2.2.1.trans h1.2.1, h2.2.2.1.trans h1.2.2.1,
         h2.2.2.2.trans h1.2.2.2⟩

/-- C10: when `init` forces a reindex (non-empty `db_key` unused by any on-disk key
record, or encrypted file with empty `db_key`), it clears the stored key salt
first, so `reset_encryption` picks the fresh random salt and derives the key from
the current `db_key` via PBKDF2 instead of reusing the cached key bytes; in
particular unlocking with `old_db_key` rotates the on-disk key to `db_key`. -/
theorem c10_forced_reindex_rotates_key (ext : Ext) (fs fi : List Nat)
    (eng : EngineState)
    (hwp : eng.wrongPassword = false)
    (hdb : eng.dbKey.isEmpty = false)
    (hused : eng.dbKeyUsed = false)
    (hfresh : fs ≠ [])
    (hproc : ∀ x ∈ eng.processor.events, 0 ≤ x.type)
    (hrt : ext.parseKeyEvent (ext.serializeKeyEvent
        (resetEncryptionEvent ext fs fi (reindexEntry { eng with aesCtrKeySalt := [] }))) =
      resetEncryptionEvent ext fs fi (reindexEntry { eng with aesCtrKeySalt := [] })) :
    initAfterLoad eng = (InitDecision.reindexForced, { eng with aesCtrKeySalt := [] }) ∧
    resetEncryptionEvent ext fs fi (reindexEntry { eng with aesCtrKeySalt := [] }) =
      { keySalt := fs, iv := fi,
        keyHash := generateHash ext (generateKeyFrom ext fs eng.dbKey) } ∧
    (doReindex ext fs fi { eng with aesCtrKeySalt := [] }).aesCtrKeySalt = fs ∧
    (doReindex ext fs fi { eng with aesCtrKeySalt := [] }).aesCtrKey =
      generateKeyFrom ext fs eng.dbKey ∧
    (doReindex ext fs fi { eng with aesCtrKeySalt := [] }).dbKeyUsed = true ∧
    (doReindex ext fs fi { eng with aesCtrKeySalt := [] }).encryptionType =
      EncryptionType.AesCtr := by
  have hro := doReindex_rotates ext fs fi { eng with aesCtrKeySalt := [] } rfl hdb
    hfresh hrt hproc
  refine ⟨?_, ?_, hro.1, hro.2.1, hro.2.2.1, hro.2.2.2⟩
  · simp [initAfterLoad, hwp, hdb, hused]
  · exact resetEncryptionEvent_fresh ext fs fi _ rfl hfresh

def engKeyTest : EngineState := { engTest with dbKey := ⟨false, [3]⟩ }

theorem c10_forced_reindex_rotates_key_witness :
    (initAfterLoad engKeyTest =
      (InitDecision.reindexForced, { engKeyTest with aesCtrKeySalt := [] }) ∧
    resetEncryptionEvent extTest [8] [6] (reindexEntry { engKeyTest with aesCtrKeySalt := [] }) =
      { keySalt := [8], iv := [6],
        keyHash := generateHash extTest (generateKeyFrom extTest [8] engKeyTest.dbKey) } ∧
    (doReindex extTest [8] [6] { engKeyTest with aesCtrKeySalt := [] }).aesCtrKeySalt = [8] ∧
    (doReindex extTest [8] [6] { engKeyTest with aesCtrKeySalt := [] }).aesCtrKey =
      generateKeyFrom extTest [8] engKeyTest.dbKey ∧
    (doReindex extTest [8] [6] { engKeyTest with aesCtrKeySalt := [] }).dbKeyUsed = true ∧
    (doReindex extTest [8] [6] { engKeyTest with aesCtrKeySalt := [] }).encryptionType =
      EncryptionType.AesCtr) :=
  c10_forced_reindex_rotates_key extTest [8] [6] engKeyTest rfl rfl rfl
    (by decide) (by decide) (by decide)

end TdBinlog
